import Mathlib

/-!
Shallow embedding of `src/src/models/sourcecodemodel.cpp` from the
soy-braised-pork/hotspot repository (the `SourceCodeModel` table-model
adapter), together with the line-cost aggregator it uses, and proofs of
the specification claims about it.

Machine integers: the C++ code works on `int` (source line numbers,
indices) and unsigned 64-bit cost values.  Line numbers and indices are
modelled as `Int` (no arithmetic here comes near the `int` range except
the deliberate `INT_MAX` sentinel, which is modelled explicitly); cost
values are modelled as `Nat` (the aggregation claims are additive and
hold verbatim; no subtraction or overflow-sensitive arithmetic occurs).
Fallible steps (out-of-bounds buffer accesses, which are undefined
behaviour in the C++) are modelled by `Option`: a `none` result of
`setDisassembly` marks that the run performed an out-of-bounds access.
-/

/-- A per-type self-cost record, indexed by cost-type index.  In the
repository this is the per-type cost vector of a `LocationCost` entry. -/
def CostRecord : Type := Nat → Nat

/-- Modelled from the spec: the Line-Cost Aggregator (`Data::Costs`,
`m_costs` in the C++), whose implementation lives in the repository's
`data.h`/`data.cpp` which are not part of the given sources.  Per the
spec (section 4.1) it keeps, per cost type, a per-line running total and
a grand total; `lines` records which line numbers have been passed to
`add` (the support of the per-line map). -/
structure Costs where
  numTypes : Nat
  lineCost : Nat → Int → Nat
  totals : Nat → Nat
  lines : List Int

/-- Modelled from the spec: `initialize(costTypes)` / the C++
`m_costs = {}; m_costs.initializeCostsFrom(selfCosts)` pair resets all
per-type totals and per-line costs to zero and establishes the type
count. -/
def Costs.initCosts (n : Nat) : Costs :=
  { numTypes := n, lineCost := fun _ _ => 0, totals := fun _ => 0, lines := [] }

/-- Modelled from the spec: `add(lineNumber, costRecord)` adds each of
the record's per-type values to that line's running total and to that
type's grand total. -/
def Costs.add (c : Costs) (line : Int) (r : CostRecord) : Costs :=
  { c with
    lineCost := fun t l => c.lineCost t l + (if l = line then r t else 0)
    totals := fun t => c.totals t + r t
    lines := line :: c.lines }

/-- Modelled from the spec: `cost(typeIndex, lineNumber)` returns the
accumulated value (0 if absent; absence is not an error). -/
def Costs.cost (c : Costs) (t : Nat) (line : Int) : Nat :=
  c.lineCost t line

/-- Modelled from the spec: `totalCost(typeIndex)` returns the grand
total for a type. -/
def Costs.totalCost (c : Costs) (t : Nat) : Nat :=
  c.totals t

/-- A sequence of `add` calls applied in order (left fold, matching the
sequential calls made by `setDisassembly`). -/
def Costs.applyAdds (c : Costs) (adds : List (Int × CostRecord)) : Costs :=
  adds.foldl (fun acc p => acc.add p.1 p.2) c

/-- One disassembled instruction line: address and optional mapped
source line (`sourceCodeLine == 0` is the sentinel for "unmapped").
From `disassemblyoutput.h` via its uses in `sourcecodemodel.cpp`. -/
structure DisassemblyLine where
  addr : Nat
  sourceCodeLine : Int

/-- The disassembly-output structure consumed by `setDisassembly`
(fields actually used by it: symbol, source file name, instruction
lines). -/
structure DisassemblyOutput where
  symbol : String
  sourceFileName : String
  disassemblyLines : List DisassemblyLine

/-- Modelled from the spec: the per-symbol cost-results collaborator
(`Data::CallerCalleeResults`, defined in the repository's `data.h` which
is not part of the given sources).  `entryOffsetMap s a` is the
`entry(s).offsetMap` lookup at address `a` (`none` = no cost entry);
`numTypes` and `typeNames` come from `selfCosts`. -/
structure CallerCalleeResults where
  entryOffsetMap : String → Nat → Option CostRecord
  numTypes : Nat
  typeNames : Nat → List Char

/-- The mutable state of `SourceCodeModel` (the members touched by the
translated member functions).  `sourceCode` holds, per displayed row,
the text of the document line pushed by the display loop (standing for
the row's `QTextLine`). -/
structure SourceCodeModel where
  sourceCode : List (List Char)
  costs : Costs
  validLineNumbers : Finset Int
  lineOffset : Int
  highlightLine : Int
  numTypes : Nat
  results : CallerCalleeResults

/-- Column indices of `SourceCodeModel::Columns` (the model's header is
not among the given sources; the values follow the usage in
`sourcecodemodel.cpp` and the analogous enum in `disassemblymodel.h`). -/
def SourceCodeColumn : Int := 0

/-- Column index of the source-line-number column. -/
def SourceCodeLineNumber : Int := 1

/-- Column index of the highlight column. -/
def Highlight : Int := 2

/-- Number of fixed columns (`COLUMN_COUNT`); cost-type columns follow. -/
def COLUMN_COUNT : Int := 3

/-- The `INT_MAX` sentinel used to initialise `minIndex`. -/
def INT_MAX : Int := 2147483647

/-- Splitting a character list at every occurrence of `sep`, keeping
empty parts (the semantics of `QString::split`).  Line text is modelled
as `List Char` throughout. -/
def splitChars (sep : Char) (l : List Char) : List (List Char) :=
  match l with
  | [] => [[]]
  | c :: rest =>
    if c = sep then [] :: splitChars sep rest
    else
      match splitChars sep rest with
      | [] => [[c]]
      | w :: ws => (c :: w) :: ws

/-- `QString::split('\n')` keeping empty parts, applied to the file
content. -/
def splitLines (s : String) : List (List Char) :=
  splitChars '\n' s.data

/-- Whether a source line contains an opening parenthesis
(`line.contains(QLatin1Char('('))`). -/
def containsParen (s : List Char) : Bool :=
  s.contains '('

/-- Indexed access into the split line buffer (`lines[i]` on the
`QStringList`); `none` models the undefined behaviour of an
out-of-range access. -/
def qAt (lines : List (List Char)) (i : Int) : Option (List Char) :=
  if h : 0 ≤ i ∧ i.toNat < lines.length then some (lines.get ⟨i.toNat, h.2⟩) else none

/-- Accumulator of the instruction scan in `setDisassembly`
(lines 73-99 of the C++): running max/min of mapped source lines, the
cost aggregator, and the valid-line set. -/
structure ScanAcc where
  maxIndex : Int
  minIndex : Int
  costs : Costs
  valid : Finset Int

/-- One iteration of the scan loop (lines 78-99): skip unmapped lines,
update min/max, attribute self-cost when the address has a cost entry,
and mark the line valid. -/
def scanStep (om : Nat → Option CostRecord) (acc : ScanAcc) (dl : DisassemblyLine) : ScanAcc :=
  if dl.sourceCodeLine = 0 then acc
  else
    { maxIndex := if dl.sourceCodeLine > acc.maxIndex then dl.sourceCodeLine else acc.maxIndex
      minIndex := if dl.sourceCodeLine < acc.minIndex then dl.sourceCodeLine else acc.minIndex
      costs :=
        match om dl.addr with
        | some r => acc.costs.add dl.sourceCodeLine r
        | none => acc.costs
      valid := insert dl.sourceCodeLine acc.valid }

/-- The full scan over the disassembly, started from
`maxIndex = 0`, `minIndex = INT_MAX`, fresh costs, empty valid set. -/
def scanDisassembly (om : Nat → Option CostRecord) (ds : List DisassemblyLine)
    (costs0 : Costs) : ScanAcc :=
  ds.foldl (scanStep om) { maxIndex := 0, minIndex := INT_MAX, costs := costs0, valid := ∅ }

/-- Fuel-indexed body of the backward walk of the parenthesis
heuristic; the fuel argument only enables structural recursion and is
chosen large enough in `parenLoop` that the `0` case is never reached
(`parenLoop_eq` below shows the wrapper satisfies the loop's own
recurrence). -/
def parenLoopAux (lines : List (List Char)) : Nat → Int → Int → Option Int
  | 0, _, minIndex => some minIndex
  | fuel + 1, i, minIndex =>
    if i > minIndex - 6 then
      if i < 0 then some minIndex
      else
        match qAt lines (minIndex - 1) with
        | none => none
        | some s =>
          if containsParen s then some minIndex
          else parenLoopAux lines fuel (i - 1) (minIndex - 1)
    else some minIndex

/-- The backward walk of the parenthesis heuristic (lines 106-112):
`for (int i = minIndex - 1; i > minIndex - 6; i--) { if (i < 0) break;
if (lines[minIndex - 1].contains('(')) break; minIndex--; }`.
Returns the final `minIndex`, or `none` if a buffer access was out of
bounds. -/
def parenLoop (lines : List (List Char)) (i minIndex : Int) : Option Int :=
  parenLoopAux lines ((i + 1).toNat + 1) i minIndex

/-- The parenthesis heuristic (lines 103-113): check
`lines[minIndex - 1]`, and if it lacks an opening parenthesis run the
backward walk. -/
def parenHeuristic (lines : List (List Char)) (minIndex : Int) : Option Int :=
  match qAt lines (minIndex - 1) with
  | none => none
  | some s =>
    if containsParen s then some minIndex
    else parenLoop lines (minIndex - 1) minIndex

/-- Fuel-indexed body of the display loop; as with `parenLoopAux` the
fuel only enables structural recursion and is chosen large enough in
`displayLoop` that the `0` case is never reached. -/
def displayLoopAux (lines : List (List Char)) : Nat → Int → Int → Option (List (List Char))
  | 0, _, _ => some []
  | fuel + 1, i, stop =>
    if i < stop then
      match qAt lines i with
      | none => none
      | some s =>
        match displayLoopAux lines fuel (i + 1) stop with
        | none => none
        | some rest => some (s :: rest)
    else some []

/-- The display loop (lines 115-118): push the document line for every
`i` with `start ≤ i < stop` (in the C++, `start = minIndex - 1` and
`stop = maxIndex + 1`); `none` if a document line index was out of
range (invalid `QTextBlock`). -/
def displayLoop (lines : List (List Char)) (i stop : Int) : Option (List (List Char)) :=
  displayLoopAux lines ((stop - i).toNat + 1) i stop

/-- The data-shaping core of `setDisassembly` once the file is open
(lines 60-120): split the file, scan the disassembly, run the
parenthesis heuristic, run the display loop.  Returns the new values of
`m_sourceCode`, `m_costs`, `m_validLineNumbers` and `m_lineOffset`, or
`none` on an out-of-bounds access. -/
def setDisassemblyCore (results : CallerCalleeResults) (out : DisassemblyOutput)
    (content : String) : Option (List (List Char) × Costs × Finset Int × Int) :=
  let lines := splitLines content
  let acc := scanDisassembly (results.entryOffsetMap out.symbol) out.disassemblyLines
    (Costs.initCosts results.numTypes)
  match parenHeuristic lines acc.minIndex with
  | none => none
  | some mi =>
    match displayLoop lines (mi - 1) (acc.maxIndex + 1) with
    | none => none
    | some rows => some (rows, acc.costs, acc.valid, mi)

/-- `SourceCodeModel::setDisassembly`.  `fs` models the file system
(`QFile::open` + `readAll`): `fs name = none` means the file cannot be
opened.  An empty file name or an unopenable file returns early with
the state unchanged (lines 46-52). -/
def SourceCodeModel.setDisassembly (fs : String → Option String) (st : SourceCodeModel)
    (out : DisassemblyOutput) : Option SourceCodeModel :=
  if out.sourceFileName = "" then some st
  else
    match fs out.sourceFileName with
    | none => some st
    | some content =>
      match setDisassemblyCore st.results out content with
      | none => none
      | some q =>
        some { st with
          sourceCode := q.1
          costs := q.2.1
          validLineNumbers := q.2.2.1
          lineOffset := q.2.2.2 }

/-- `SourceCodeModel::rowCount` at the root index. -/
def SourceCodeModel.rowCount (st : SourceCodeModel) : Int :=
  st.sourceCode.length

/-- `SourceCodeModel::columnCount` at the root index. -/
def SourceCodeModel.columnCount (st : SourceCodeModel) : Int :=
  COLUMN_COUNT + st.numTypes

/-- The item roles distinguished by `data`. -/
inductive Role where
  | display
  | tooltip
  | costRole
  | totalCostRole
  | other
deriving DecidableEq

/-- Header orientations. -/
inductive QtOrientation where
  | horizontal
  | vertical
deriving DecidableEq

/-- The values returned by `data`/`headerData` (a restriction of
`QVariant` to the payloads this model produces).  `fmtCost c t` stands
for the string `Util::formatCostRelative(c, t, true)`. -/
inductive QVariant where
  | empty
  | int (n : Int)
  | num (n : Nat)
  | bool (b : Bool)
  | textLine (s : List Char)
  | str (s : List Char)
  | fmtCost (cost total : Nat)
deriving DecidableEq

/-- `SourceCodeModel::data` (lines 149-188). -/
def SourceCodeModel.data (st : SourceCodeModel) (row col : Int) (role : Role) : QVariant :=
  if ¬(0 ≤ row ∧ row < st.rowCount ∧ 0 ≤ col ∧ col < st.columnCount) then .empty
  else if st.rowCount < row ∨ row < 0 then .empty
  else
    if role = .display ∨ role = .tooltip ∨ role = .costRole ∨ role = .totalCostRole then
      if col = SourceCodeColumn then .textLine (st.sourceCode.getD row.toNat [])
      else if col = SourceCodeLineNumber then
        if row + st.lineOffset ∈ st.validLineNumbers then .int (row + st.lineOffset)
        else .int 0
      else if col = Highlight then .bool (decide (row + st.lineOffset = st.highlightLine))
      else if col - COLUMN_COUNT < (st.numTypes : Int) then
        if role = .costRole then .num (st.costs.cost (col - COLUMN_COUNT).toNat (row + st.lineOffset))
        else if role = .totalCostRole then .num (st.costs.totalCost (col - COLUMN_COUNT).toNat)
        else .fmtCost (st.costs.cost (col - COLUMN_COUNT).toNat (row + st.lineOffset))
          (st.costs.totalCost (col - COLUMN_COUNT).toNat)
      else .empty
    else .empty

/-- `SourceCodeModel::headerData` (lines 125-147). -/
def SourceCodeModel.headerData (st : SourceCodeModel) (sec : Int) (orientation : QtOrientation)
    (role : Role) : QVariant :=
  if sec < 0 ∨ COLUMN_COUNT + (st.numTypes : Int) ≤ sec then .empty
  else if ¬(role = .display ∧ orientation = .horizontal) then .empty
  else if sec = SourceCodeColumn then .str "Source Code".data
  else if sec = SourceCodeLineNumber then .str "Source Code Line Number".data
  else if sec = Highlight then .str "Highlight".data
  else if sec - COLUMN_COUNT ≤ (st.numTypes : Int) then
    .str (st.results.typeNames (sec - COLUMN_COUNT).toNat)
  else .empty

/-- `SourceCodeModel::updateHighlighting` (lines 200-204): stores the
highlight line (the `dataChanged` signal carries no state). -/
def SourceCodeModel.updateHighlighting (st : SourceCodeModel) (line : Int) : SourceCodeModel :=
  { st with highlightLine := line }

/-- `SourceCodeModel::lineForIndex` (lines 206-209). -/
def SourceCodeModel.lineForIndex (st : SourceCodeModel) (row : Int) : Int :=
  row + st.lineOffset

/-- `SourceCodeModel::setCallerCalleeResults` (lines 211-217). -/
def SourceCodeModel.setCallerCalleeResults (st : SourceCodeModel)
    (results : CallerCalleeResults) : SourceCodeModel :=
  { st with results := results, numTypes := results.numTypes }


/-- The invariant maintained by the Line-Cost Aggregator: every line
outside the support has cost 0, and each type's grand total is the sum
of that type's per-line costs. -/
def CostsGood (c : Costs) : Prop :=
  ∀ t : Nat,
    (∀ l : Int, l ∉ c.lines → c.lineCost t l = 0) ∧
      c.totals t = c.lines.toFinset.sum (fun l => c.lineCost t l)

/-- Example collaborator results: no cost entries, no cost types. -/
def exResults : CallerCalleeResults :=
  { entryOffsetMap := fun _ _ => none, numTypes := 0, typeNames := fun _ => [] }

/-- A freshly constructed model state (all members at their initial
values). -/
def initState : SourceCodeModel :=
  { sourceCode := [], costs := Costs.initCosts 0, validLineNumbers := ∅, lineOffset := 0,
    highlightLine := 0, numTypes := 0, results := exResults }

/-- Example file system for the span example: a nine-line source file
whose line index 4 (source line 5) contains an opening parenthesis. -/
def exFs4 : String → Option String := fun n =>
  if n = "ex.c" then some "z\nz\nz\nz\nq(\nfive\nsix\nseven\neight" else none

/-- Example disassembly mapping source lines 5 and 7. -/
def exOut4 : DisassemblyOutput :=
  { symbol := "f", sourceFileName := "ex.c", disassemblyLines := [⟨0, 5⟩, ⟨1, 7⟩] }

/-- The run of `setDisassembly` on the span example. -/
def exRun4 : Option SourceCodeModel :=
  SourceCodeModel.setDisassembly exFs4 initState exOut4

/-- Example file system for the backward-walk example: a ten-line file
whose only opening parenthesis is on line index 0. -/
def exFs2 : String → Option String := fun n =>
  if n = "w.c" then some "(\nb\nc\nd\ne\nf\ng\nh\ni\nj" else none

/-- Example disassembly mapping only source line 8, so the backward
walk starts at line index 7 and only finds a parenthesis at index 0. -/
def exOut2 : DisassemblyOutput :=
  { symbol := "g", sourceFileName := "w.c", disassemblyLines := [⟨0, 8⟩] }

/-- Example file system for the degenerate-range example: an openable
three-line source file. -/
def exFs3 : String → Option String := fun n =>
  if n = "g.c" then some "alpha\nbeta\ngamma" else none

/-- Example disassembly in which every instruction is unmapped
(`sourceCodeLine == 0`). -/
def exOut3 : DisassemblyOutput :=
  { symbol := "h", sourceFileName := "g.c", disassemblyLines := [⟨0, 0⟩, ⟨4, 0⟩] }

/-- A state carrying leftover data from a previous symbol (junk rows,
costs, valid lines and offsets), with the same collaborator results as
`initState`. -/
def exStaleState : SourceCodeModel :=
  { sourceCode := [['j']], costs := (Costs.initCosts 0).add 3 (fun _ => 5),
    validLineNumbers := {42}, lineOffset := 9, highlightLine := 4, numTypes := 0,
    results := exResults }

/-- The example `add` sequence for the aggregator invariant witness. -/
def exAdds : List (Int × CostRecord) :=
  [(5, fun _ => 2), (7, fun _ => 3), (5, fun _ => 4)]


/-- A disassembly output whose source file cannot be opened. -/
def exOutMissing : DisassemblyOutput :=
  { symbol := "s", sourceFileName := "x.c", disassemblyLines := [⟨0, 1⟩] }

/-- A file system in which no file can be opened. -/
def exFsNone : String → Option String := fun _ => none

/-!  ## Proofs -/

/-- `parenLoop` satisfies the recurrence of the C++ loop: the fuel in
its definition is always sufficient. -/
theorem parenLoop_eq (lines : List (List Char)) (i minIndex : Int) :
    parenLoop lines i minIndex =
      if i > minIndex - 6 then
        if i < 0 then some minIndex
        else
          match qAt lines (minIndex - 1) with
          | none => none
          | some s =>
            if containsParen s then some minIndex
            else parenLoop lines (i - 1) (minIndex - 1)
      else some minIndex := by
  show parenLoopAux lines ((i + 1).toNat + 1) i minIndex = _
  rw [parenLoopAux]
  by_cases h6 : i > minIndex - 6
  · rw [if_pos h6, if_pos h6]
    by_cases h0 : i < 0
    · rw [if_pos h0, if_pos h0]
    · rw [if_neg h0, if_neg h0]
      cases qAt lines (minIndex - 1) with
      | none => rfl
      | some s =>
        by_cases hp : containsParen s
        · simp [hp]
        · have hfuel : (i + 1).toNat = (i - 1 + 1).toNat + 1 := by omega
          simp only [hp, if_neg, Bool.false_eq_true, if_false]
          rw [parenLoop, ← hfuel]
  · rw [if_neg h6, if_neg h6]

/-- `displayLoop` satisfies the recurrence of the C++ loop: the fuel in
its definition is always sufficient. -/
theorem displayLoop_eq (lines : List (List Char)) (i stop : Int) :
    displayLoop lines i stop =
      if i < stop then
        match qAt lines i with
        | none => none
        | some s =>
          match displayLoop lines (i + 1) stop with
          | none => none
          | some rest => some (s :: rest)
      else some [] := by
  show displayLoopAux lines ((stop - i).toNat + 1) i stop = _
  rw [displayLoopAux]
  by_cases h : i < stop
  · rw [if_pos h, if_pos h]
    cases qAt lines i with
    | none => rfl
    | some s =>
      have hfuel : (stop - i).toNat = (stop - (i + 1)).toNat + 1 := by omega
      rw [displayLoop, ← hfuel]
  · rw [if_neg h, if_neg h]

theorem costsGood_initCosts (n : Nat) : CostsGood (Costs.initCosts n) := by
  intro t
  constructor
  · intro l _
    rfl
  · simp [Costs.initCosts]

theorem costsGood_add {c : Costs} (h : CostsGood c) (x : Int) (r : CostRecord) :
    CostsGood (c.add x r) := by
  intro t
  obtain ⟨hz, hs⟩ := h t
  constructor
  · intro l hl
    simp only [Costs.add, List.mem_cons, not_or] at hl ⊢
    rw [hz l hl.2, if_neg hl.1]
  · simp only [Costs.add, List.toFinset_cons]
    rw [Finset.sum_add_distrib]
    have h2 :
        (insert x c.lines.toFinset).sum (fun l => if l = x then r t else 0) = r t := by
      rw [Finset.sum_ite_eq' (insert x c.lines.toFinset) x (fun _ => r t)]
      simp
    rw [h2]
    by_cases hx : x ∈ c.lines.toFinset
    · rw [Finset.insert_eq_self.mpr hx, hs]
    · rw [Finset.sum_insert hx, hz x (by simpa using hx), hs]
      ring

theorem costsGood_applyAdds {c : Costs} (h : CostsGood c) (adds : List (Int × CostRecord)) :
    CostsGood (c.applyAdds adds) := by
  induction adds generalizing c with
  | nil => exact h
  | cons p rest ih => exact ih (costsGood_add h p.1 p.2)

theorem scanStep_minIndex (om : Nat → Option CostRecord) (acc : ScanAcc) (dl : DisassemblyLine) :
    (scanStep om acc dl).minIndex =
      if dl.sourceCodeLine = 0 then acc.minIndex
      else if dl.sourceCodeLine < acc.minIndex then dl.sourceCodeLine else acc.minIndex := by
  by_cases h : dl.sourceCodeLine = 0 <;> simp [scanStep, h]

theorem scanStep_maxIndex (om : Nat → Option CostRecord) (acc : ScanAcc) (dl : DisassemblyLine) :
    (scanStep om acc dl).maxIndex =
      if dl.sourceCodeLine = 0 then acc.maxIndex
      else if dl.sourceCodeLine > acc.maxIndex then dl.sourceCodeLine else acc.maxIndex := by
  by_cases h : dl.sourceCodeLine = 0 <;> simp [scanStep, h]

theorem scanStep_valid (om : Nat → Option CostRecord) (acc : ScanAcc) (dl : DisassemblyLine) :
    (scanStep om acc dl).valid =
      if dl.sourceCodeLine = 0 then acc.valid
      else insert dl.sourceCodeLine acc.valid := by
  by_cases h : dl.sourceCodeLine = 0 <;> simp [scanStep, h]

theorem scanFold_minIndex_le (om : Nat → Option CostRecord) (ds : List DisassemblyLine) :
    ∀ acc : ScanAcc, (ds.foldl (scanStep om) acc).minIndex ≤ acc.minIndex := by
  induction ds with
  | nil => intro acc; exact le_refl _
  | cons d rest ih =>
    intro acc
    refine le_trans (ih (scanStep om acc d)) ?_
    rw [scanStep_minIndex]
    by_cases h : d.sourceCodeLine = 0
    · rw [if_pos h]
    · rw [if_neg h]
      split
      · omega
      · exact le_refl _

theorem scanFold_le_maxIndex (om : Nat → Option CostRecord) (ds : List DisassemblyLine) :
    ∀ acc : ScanAcc, acc.maxIndex ≤ (ds.foldl (scanStep om) acc).maxIndex := by
  induction ds with
  | nil => intro acc; exact le_refl _
  | cons d rest ih =>
    intro acc
    refine le_trans ?_ (ih (scanStep om acc d))
    rw [scanStep_maxIndex]
    by_cases h : d.sourceCodeLine = 0
    · rw [if_pos h]
    · rw [if_neg h]
      split
      · omega
      · exact le_refl _

theorem scanFold_min_le_max (om : Nat → Option CostRecord) (ds : List DisassemblyLine) :
    ∀ acc : ScanAcc, (∃ dl ∈ ds, dl.sourceCodeLine ≠ 0) →
      (ds.foldl (scanStep om) acc).minIndex ≤ (ds.foldl (scanStep om) acc).maxIndex := by
  induction ds with
  | nil =>
    intro acc h
    simp at h
  | cons d rest ih =>
    intro acc h
    obtain ⟨dl, hmem, hne⟩ := h
    rcases List.mem_cons.mp hmem with heq | hrest
    · subst heq
      have h1 : (scanStep om acc dl).minIndex ≤ dl.sourceCodeLine := by
        rw [scanStep_minIndex, if_neg hne]
        split <;> omega
      have h2 : dl.sourceCodeLine ≤ (scanStep om acc dl).maxIndex := by
        rw [scanStep_maxIndex, if_neg hne]
        split <;> omega
      calc (rest.foldl (scanStep om) (scanStep om acc dl)).minIndex
          ≤ (scanStep om acc dl).minIndex := scanFold_minIndex_le om rest _
        _ ≤ dl.sourceCodeLine := h1
        _ ≤ (scanStep om acc dl).maxIndex := h2
        _ ≤ (rest.foldl (scanStep om) (scanStep om acc dl)).maxIndex :=
            scanFold_le_maxIndex om rest _
    · exact ih (scanStep om acc d) ⟨dl, hrest, hne⟩

theorem scanFold_all_unmapped (om : Nat → Option CostRecord) (ds : List DisassemblyLine)
    (h : ∀ dl ∈ ds, dl.sourceCodeLine = 0) :
    ∀ acc : ScanAcc, ds.foldl (scanStep om) acc = acc := by
  induction ds with
  | nil => intro acc; rfl
  | cons d rest ih =>
    intro acc
    have hd : d.sourceCodeLine = 0 := h d (List.mem_cons_self d rest)
    have hstep : scanStep om acc d = acc := by rw [scanStep, if_pos hd]
    rw [List.foldl_cons, hstep]
    exact ih (fun dl hdl => h dl (List.mem_cons_of_mem d hdl)) acc

theorem scanFold_valid_mem (om : Nat → Option CostRecord) (ds : List DisassemblyLine) :
    ∀ (acc : ScanAcc) (x : Int),
      x ∈ (ds.foldl (scanStep om) acc).valid ↔
        x ∈ acc.valid ∨ (x ≠ 0 ∧ ∃ dl ∈ ds, dl.sourceCodeLine = x) := by
  induction ds with
  | nil =>
    intro acc x
    simp
  | cons d rest ih =>
    intro acc x
    rw [List.foldl_cons, ih (scanStep om acc d) x, scanStep_valid]
    by_cases h : d.sourceCodeLine = 0
    · rw [if_pos h]
      constructor
      · rintro (hv | ⟨hx, dl, hdl, hs⟩)
        · exact Or.inl hv
        · exact Or.inr ⟨hx, dl, List.mem_cons_of_mem d hdl, hs⟩
      · rintro (hv | ⟨hx, dl, hdl, hs⟩)
        · exact Or.inl hv
        · rcases List.mem_cons.mp hdl with heq | hrest
          · subst heq; exact absurd (hs.symm.trans h) hx
          · exact Or.inr ⟨hx, dl, hrest, hs⟩
    · rw [if_neg h, Finset.mem_insert]
      constructor
      · rintro ((heq | hv) | ⟨hx, dl, hdl, hs⟩)
        · exact Or.inr ⟨heq ▸ h, d, List.mem_cons_self d rest, heq.symm⟩
        · exact Or.inl hv
        · exact Or.inr ⟨hx, dl, List.mem_cons_of_mem d hdl, hs⟩
      · rintro (hv | ⟨hx, dl, hdl, hs⟩)
        · exact Or.inl (Or.inr hv)
        · rcases List.mem_cons.mp hdl with heq | hrest
          · subst heq; exact Or.inl (Or.inl hs.symm)
          · exact Or.inr ⟨hx, dl, hrest, hs⟩

theorem parenLoopAux_le (lines : List (List Char)) :
    ∀ (fuel : Nat) (i mi m : Int), parenLoopAux lines fuel i mi = some m → m ≤ mi := by
  intro fuel
  induction fuel with
  | zero =>
    intro i mi m h
    rw [parenLoopAux, Option.some_inj] at h
    omega
  | succ k ih =>
    intro i mi m h
    rw [parenLoopAux] at h
    split at h
    · split at h
      · rw [Option.some_inj] at h
        omega
      · split at h
        · exact absurd h (by simp)
        · split at h
          · rw [Option.some_inj] at h
            omega
          · have := ih (i - 1) (mi - 1) m h
            omega
    · rw [Option.some_inj] at h
      omega

theorem parenLoop_le (lines : List (List Char)) (i mi m : Int)
    (h : parenLoop lines i mi = some m) : m ≤ mi :=
  parenLoopAux_le lines ((i + 1).toNat + 1) i mi m h

theorem parenHeuristic_le (lines : List (List Char)) (mi m : Int)
    (h : parenHeuristic lines mi = some m) : m ≤ mi := by
  rw [parenHeuristic] at h
  split at h
  · exact absurd h (by simp)
  · split at h
    · rw [Option.some_inj] at h
      omega
    · exact parenLoop_le lines (mi - 1) mi m h

theorem displayLoop_length (lines : List (List Char)) :
    ∀ (n : Nat) (i stop : Int), (stop - i).toNat = n →
      ∀ l, displayLoop lines i stop = some l → l.length = (stop - i).toNat := by
  intro n
  induction n with
  | zero =>
    intro i stop hn l h
    have hstop : ¬i < stop := by omega
    rw [displayLoop_eq, if_neg hstop, Option.some_inj] at h
    subst h
    simp [hn]
  | succ k ih =>
    intro i stop hn l h
    have hstop : i < stop := by omega
    rw [displayLoop_eq, if_pos hstop] at h
    split at h
    · exact absurd h (by simp)
    · split at h
      · exact absurd h (by simp)
      · rename_i s hq rest hr
        rw [Option.some_inj] at h
        subst h
        have hk : (stop - (i + 1)).toNat = k := by omega
        have hlen := ih (i + 1) stop hk rest hr
        simp only [List.length_cons, hlen]
        omega

theorem setDisassemblyCore_inv (results : CallerCalleeResults) (out : DisassemblyOutput)
    (content : String) (rows : List (List Char)) (costs : Costs) (valid : Finset Int) (mi : Int)
    (h : setDisassemblyCore results out content = some (rows, costs, valid, mi)) :
    parenHeuristic (splitLines content)
        (scanDisassembly (results.entryOffsetMap out.symbol) out.disassemblyLines
          (Costs.initCosts results.numTypes)).minIndex = some mi ∧
      displayLoop (splitLines content) (mi - 1)
          ((scanDisassembly (results.entryOffsetMap out.symbol) out.disassemblyLines
            (Costs.initCosts results.numTypes)).maxIndex + 1) = some rows ∧
      costs = (scanDisassembly (results.entryOffsetMap out.symbol) out.disassemblyLines
          (Costs.initCosts results.numTypes)).costs ∧
      valid = (scanDisassembly (results.entryOffsetMap out.symbol) out.disassemblyLines
          (Costs.initCosts results.numTypes)).valid := by
  simp only [setDisassemblyCore] at h
  split at h
  · exact absurd h (by simp)
  · rename_i m hp
    split at h
    · exact absurd h (by simp)
    · rename_i r hd
      rw [Option.some_inj] at h
      simp only [Prod.mk.injEq] at h
      obtain ⟨h1, h2, h3, h4⟩ := h
      subst h1
      subst h2
      subst h3
      subst h4
      exact ⟨hp, hd, rfl, rfl⟩

theorem setDisassembly_inv (fs : String → Option String) (st : SourceCodeModel)
    (out : DisassemblyOutput) (content : String) (st' : SourceCodeModel)
    (h1 : ¬out.sourceFileName = "") (h2 : fs out.sourceFileName = some content)
    (h3 : SourceCodeModel.setDisassembly fs st out = some st') :
    ∃ rows costs valid mi,
      setDisassemblyCore st.results out content = some (rows, costs, valid, mi) ∧
        st' = { st with
          sourceCode := rows, costs := costs, validLineNumbers := valid, lineOffset := mi } := by
  rw [SourceCodeModel.setDisassembly, if_neg h1] at h3
  split at h3
  · rename_i hfs
    rw [h2] at hfs
    exact absurd hfs (by simp)
  · rename_i content2 hfs
    rw [h2, Option.some_inj] at hfs
    subst hfs
    split at h3
    · exact absurd h3 (by simp)
    · rename_i q hc
      rw [Option.some_inj] at h3
      exact ⟨q.1, q.2.1, q.2.2.1, q.2.2.2, hc, h3.symm⟩

theorem exRun4_isSome : exRun4.isSome = true := by
  rfl

theorem data_highlight_col (st : SourceCodeModel) (r : Int) (h0 : 0 ≤ r)
    (h1 : r < st.rowCount) :
    st.data r Highlight Role.display =
      QVariant.bool (decide (r + st.lineOffset = st.highlightLine)) := by
  have hin : 0 ≤ r ∧ r < st.rowCount ∧ 0 ≤ Highlight ∧ Highlight < st.columnCount := by
    refine ⟨h0, h1, by rw [Highlight]; omega, ?_⟩
    rw [Highlight, SourceCodeModel.columnCount, COLUMN_COUNT]
    omega
  rw [SourceCodeModel.data, if_neg (not_not_intro hin),
    if_neg (by omega : ¬(st.rowCount < r ∨ r < 0)),
    if_pos (Or.inl rfl : Role.display = Role.display ∨ Role.display = Role.tooltip ∨
      Role.display = Role.costRole ∨ Role.display = Role.totalCostRole),
    if_neg (by decide : ¬Highlight = SourceCodeColumn),
    if_neg (by decide : ¬Highlight = SourceCodeLineNumber), if_pos rfl]

theorem data_lineNumber_col (st : SourceCodeModel) (r : Int) (h0 : 0 ≤ r)
    (h1 : r < st.rowCount) :
    st.data r SourceCodeLineNumber Role.display =
      if r + st.lineOffset ∈ st.validLineNumbers then QVariant.int (r + st.lineOffset)
      else QVariant.int 0 := by
  have hin : 0 ≤ r ∧ r < st.rowCount ∧ 0 ≤ SourceCodeLineNumber ∧
      SourceCodeLineNumber < st.columnCount := by
    refine ⟨h0, h1, by rw [SourceCodeLineNumber]; omega, ?_⟩
    rw [SourceCodeLineNumber, SourceCodeModel.columnCount, COLUMN_COUNT]
    omega
  rw [SourceCodeModel.data, if_neg (not_not_intro hin),
    if_neg (by omega : ¬(st.rowCount < r ∨ r < 0)),
    if_pos (Or.inl rfl : Role.display = Role.display ∨ Role.display = Role.tooltip ∨
      Role.display = Role.costRole ∨ Role.display = Role.totalCostRole),
    if_neg (by decide : ¬SourceCodeLineNumber = SourceCodeColumn), if_pos rfl]

/-- C1: for every sequence of cost records added via `add` after
initialization, and for every cost type `t`, the grand total
`totalCost t` equals the sum over all source lines of `cost t line`:
it equals the sum over the (finitely many) lines that were ever passed
to `add`, and every other line has `cost t line = 0`. -/
theorem claim_totalCost_eq_sum_of_line_costs (n : Nat) (adds : List (Int × CostRecord))
    (t : Nat) :
    ((Costs.initCosts n).applyAdds adds).totalCost t =
      ((Costs.initCosts n).applyAdds adds).lines.toFinset.sum
        (fun l => ((Costs.initCosts n).applyAdds adds).cost t l) ∧
    ∀ l : Int, l ∉ ((Costs.initCosts n).applyAdds adds).lines →
      ((Costs.initCosts n).applyAdds adds).cost t l = 0 := by
  obtain ⟨hz, hs⟩ := costsGood_applyAdds (costsGood_initCosts n) adds t
  exact ⟨hs, hz⟩

/-- Witness for C1 at a concrete `add` sequence, cost type 0 and the
untouched line 9. -/
theorem claim_totalCost_eq_sum_of_line_costs_witness :
    ((Costs.initCosts 1).applyAdds exAdds).totalCost 0 =
      ((Costs.initCosts 1).applyAdds exAdds).lines.toFinset.sum
        (fun l => ((Costs.initCosts 1).applyAdds exAdds).cost 0 l) ∧
    ((Costs.initCosts 1).applyAdds exAdds).cost 0 9 = 0 :=
  ⟨(claim_totalCost_eq_sum_of_line_costs 1 exAdds 0).1,
    (claim_totalCost_eq_sum_of_line_costs 1 exAdds 0).2 9 (by decide)⟩

/-- C7: scanning a disassembly whose instructions map to source lines
5, 5, 7, 0, 9 (in order, with any addresses, any cost lookup and any
initial aggregator) skips the unmapped instruction and yields
`minIndex = 5`, `maxIndex = 9` and valid-line set `{5, 7, 9}`. -/
theorem claim_scan_example_5_5_7_0_9 (a1 a2 a3 a4 a5 : Nat) (om : Nat → Option CostRecord)
    (c0 : Costs) :
    (scanDisassembly om [⟨a1, 5⟩, ⟨a2, 5⟩, ⟨a3, 7⟩, ⟨a4, 0⟩, ⟨a5, 9⟩] c0).minIndex = 5 ∧
      (scanDisassembly om [⟨a1, 5⟩, ⟨a2, 5⟩, ⟨a3, 7⟩, ⟨a4, 0⟩, ⟨a5, 9⟩] c0).maxIndex = 9 ∧
      (scanDisassembly om [⟨a1, 5⟩, ⟨a2, 5⟩, ⟨a3, 7⟩, ⟨a4, 0⟩, ⟨a5, 9⟩] c0).valid = {5, 7, 9} := by
  refine ⟨?_, ?_, ?_⟩ <;>
    simp [scanDisassembly, List.foldl, scanStep_minIndex, scanStep_maxIndex, scanStep_valid,
      INT_MAX]
  decide

/-- C8: if the source file name is empty or the file cannot be opened,
`setDisassembly` returns immediately with the model state unchanged. -/
theorem claim_setDisassembly_noop_when_unopenable (fs : String → Option String)
    (st : SourceCodeModel) (out : DisassemblyOutput)
    (h : out.sourceFileName = "" ∨ fs out.sourceFileName = none) :
    SourceCodeModel.setDisassembly fs st out = some st := by
  rcases h with h | h
  · rw [SourceCodeModel.setDisassembly, if_pos h]
  · rw [SourceCodeModel.setDisassembly]
    by_cases h0 : out.sourceFileName = ""
    · rw [if_pos h0]
    · rw [if_neg h0, h]

/-- Witness for C8: an unopenable file leaves a non-trivial state
untouched. -/
theorem claim_setDisassembly_noop_when_unopenable_witness :
    SourceCodeModel.setDisassembly exFsNone exStaleState exOutMissing = some exStaleState :=
  claim_setDisassembly_noop_when_unopenable exFsNone exStaleState exOutMissing (Or.inr rfl)

/-- C9: `data` returns the empty value on every out-of-range row or
column, and `headerData` returns the empty value on every section
outside `[0, COLUMN_COUNT + numTypes)`. -/
theorem claim_out_of_range_queries_empty (st : SourceCodeModel) (row col : Int) (role : Role)
    (sec : Int) (orient : QtOrientation) :
    ((row < 0 ∨ st.rowCount ≤ row ∨ col < 0 ∨ st.columnCount ≤ col) →
      st.data row col role = QVariant.empty) ∧
    ((sec < 0 ∨ COLUMN_COUNT + (st.numTypes : Int) ≤ sec) →
      st.headerData sec orient role = QVariant.empty) := by
  constructor
  · intro h
    have hc : ¬(0 ≤ row ∧ row < st.rowCount ∧ 0 ≤ col ∧ col < st.columnCount) := by omega
    rw [SourceCodeModel.data, if_pos hc]
  · intro h
    rw [SourceCodeModel.headerData, if_pos h]

/-- Witness for C9 at concrete out-of-range arguments. -/
theorem claim_out_of_range_queries_empty_witness :
    SourceCodeModel.data initState (-1) 0 Role.display = QVariant.empty ∧
      SourceCodeModel.headerData initState 5 QtOrientation.horizontal Role.display =
        QVariant.empty :=
  ⟨(claim_out_of_range_queries_empty initState (-1) 0 Role.display 5
      QtOrientation.horizontal).1 (Or.inl (by decide)),
    (claim_out_of_range_queries_empty initState (-1) 0 Role.display 5
      QtOrientation.horizontal).2 (Or.inr (by decide))⟩

/-- C10: `updateHighlighting line` changes only the stored highlight
line: every other state component, the row count and the column count
are unchanged, and afterwards the Highlight cell of an in-range row `r`
is true exactly when `r + lineOffset = line`. -/
theorem claim_updateHighlighting_frame (st : SourceCodeModel) (line r : Int) (h0 : 0 ≤ r)
    (h1 : r < st.rowCount) :
    (st.updateHighlighting line).sourceCode = st.sourceCode ∧
    (st.updateHighlighting line).costs = st.costs ∧
    (st.updateHighlighting line).validLineNumbers = st.validLineNumbers ∧
    (st.updateHighlighting line).lineOffset = st.lineOffset ∧
    (st.updateHighlighting line).numTypes = st.numTypes ∧
    (st.updateHighlighting line).results = st.results ∧
    (st.updateHighlighting line).rowCount = st.rowCount ∧
    (st.updateHighlighting line).columnCount = st.columnCount ∧
    ((st.updateHighlighting line).data r Highlight Role.display = QVariant.bool true ↔
      r + st.lineOffset = line) := by
  refine ⟨rfl, rfl, rfl, rfl, rfl, rfl, rfl, rfl, ?_⟩
  have hrow : r < (st.updateHighlighting line).rowCount := h1
  rw [data_highlight_col (st.updateHighlighting line) r h0 hrow]
  show QVariant.bool (decide (r + st.lineOffset = line)) = QVariant.bool true ↔ _
  constructor
  · intro h
    have : decide (r + st.lineOffset = line) = true := by
      injection h
    exact of_decide_eq_true this
  · intro h
    rw [decide_eq_true h]

/-- Witness for C10 at a concrete state with one row. -/
theorem claim_updateHighlighting_frame_witness :
    (exStaleState.updateHighlighting 3).sourceCode = exStaleState.sourceCode ∧
    (exStaleState.updateHighlighting 3).costs = exStaleState.costs ∧
    (exStaleState.updateHighlighting 3).validLineNumbers = exStaleState.validLineNumbers ∧
    (exStaleState.updateHighlighting 3).lineOffset = exStaleState.lineOffset ∧
    (exStaleState.updateHighlighting 3).numTypes = exStaleState.numTypes ∧
    (exStaleState.updateHighlighting 3).results = exStaleState.results ∧
    (exStaleState.updateHighlighting 3).rowCount = exStaleState.rowCount ∧
    (exStaleState.updateHighlighting 3).columnCount = exStaleState.columnCount ∧
    ((exStaleState.updateHighlighting 3).data 0 Highlight Role.display = QVariant.bool true ↔
      (0:Int) + exStaleState.lineOffset = 3) :=
  claim_updateHighlighting_frame exStaleState 3 0 (by decide) (by decide)

/-- C2 (code-bug evidence): with the source file
`"(\nb\nc\nd\ne\nf\ng\nh\ni\nj"` and a disassembly mapping only source
line 8, the scan sets `minIndex = 8`, yet the backward walk of the
parenthesis heuristic runs until it finds the parenthesis on line
index 0, leaving `minIndex` (the final line offset) at 1 — it
decremented `minIndex` 7 times, more than the intended 5: the loop
bound `i > minIndex - 6` slides because `minIndex` itself is
decremented inside the loop. -/
theorem claim_parenWalk_exceeds_five_decrements :
    (scanDisassembly (initState.results.entryOffsetMap exOut2.symbol)
        exOut2.disassemblyLines (Costs.initCosts initState.results.numTypes)).minIndex = 8 ∧
    (SourceCodeModel.setDisassembly exFs2 initState exOut2).map (fun s => s.lineOffset) =
      some 1 ∧
    ¬((8:Int) - 1 ≤ 5) :=
  ⟨by decide, by decide, by decide⟩

/-- C3 (counterexample to the claim as stated): with an openable
three-line source file and a disassembly in which every instruction has
`sourceCodeLine == 0`, the scan does leave `minIndex` at `INT_MAX` and
`maxIndex` at 0, but the subsequent parenthesis-heuristic read of
`lines[minIndex - 1]` is out of bounds, so `setDisassembly` does not
complete with in-bounds accesses (modelled result: `none`). -/
theorem claim_no_mapped_lines_oob_counterexample :
    (scanDisassembly (initState.results.entryOffsetMap exOut3.symbol)
        exOut3.disassemblyLines (Costs.initCosts initState.results.numTypes)).minIndex =
      INT_MAX ∧
    (scanDisassembly (initState.results.entryOffsetMap exOut3.symbol)
        exOut3.disassemblyLines (Costs.initCosts initState.results.numTypes)).maxIndex = 0 ∧
    SourceCodeModel.setDisassembly exFs3 initState exOut3 = none :=
  ⟨by decide, by decide, by rfl⟩

/-- C3 (amended): for every call of `setDisassembly` on an openable
source file with fewer than `INT_MAX - 1` lines whose disassembly has
no mapped lines, the scan leaves `minIndex` at its `INT_MAX` sentinel
and `maxIndex` at 0, and the subsequent `lines[minIndex - 1]` access of
the parenthesis heuristic is out of bounds, so the call aborts
(modelled result: `none`) instead of completing with in-bounds
accesses. -/
theorem claim_no_mapped_lines_degenerate (fs : String → Option String)
    (st : SourceCodeModel) (out : DisassemblyOutput) (content : String)
    (h1 : ¬out.sourceFileName = "") (h2 : fs out.sourceFileName = some content)
    (h3 : ∀ dl ∈ out.disassemblyLines, dl.sourceCodeLine = 0)
    (h4 : (splitLines content).length ≤ 2147483646) :
    (scanDisassembly (st.results.entryOffsetMap out.symbol) out.disassemblyLines
        (Costs.initCosts st.results.numTypes)).minIndex = INT_MAX ∧
    (scanDisassembly (st.results.entryOffsetMap out.symbol) out.disassemblyLines
        (Costs.initCosts st.results.numTypes)).maxIndex = 0 ∧
    SourceCodeModel.setDisassembly fs st out = none := by
  have hacc : scanDisassembly (st.results.entryOffsetMap out.symbol) out.disassemblyLines
      (Costs.initCosts st.results.numTypes) =
      { maxIndex := 0, minIndex := INT_MAX, costs := Costs.initCosts st.results.numTypes,
        valid := ∅ } :=
    scanFold_all_unmapped (st.results.entryOffsetMap out.symbol) out.disassemblyLines h3 _
  have hq : qAt (splitLines content) (INT_MAX - 1) = none := by
    rw [qAt, dif_neg]
    rw [INT_MAX]
    intro hcon
    omega
  have hp : parenHeuristic (splitLines content) INT_MAX = none := by
    rw [parenHeuristic, hq]
  have hcore : setDisassemblyCore st.results out content = none := by
    simp only [setDisassemblyCore, hacc, hp]
  refine ⟨by rw [hacc], by rw [hacc], ?_⟩
  rw [SourceCodeModel.setDisassembly, if_neg h1, h2]
  simp only [hcore]

/-- Witness for the amended C3 at the concrete degenerate input. -/
theorem claim_no_mapped_lines_degenerate_witness :
    (scanDisassembly (initState.results.entryOffsetMap exOut3.symbol)
        exOut3.disassemblyLines (Costs.initCosts initState.results.numTypes)).minIndex =
      INT_MAX ∧
    (scanDisassembly (initState.results.entryOffsetMap exOut3.symbol)
        exOut3.disassemblyLines (Costs.initCosts initState.results.numTypes)).maxIndex = 0 ∧
    SourceCodeModel.setDisassembly exFs3 initState exOut3 = none :=
  claim_no_mapped_lines_degenerate exFs3 initState exOut3 "alpha\nbeta\ngamma"
    (by decide) (by decide) (by decide) (by decide)

/-- C4 (counterexample to the claim as stated): on the span example the
scan yields `maxIndex = 7` and the final `minIndex` (the line offset)
is 5, but the model exposes 4 rows, not `maxIndex - minIndex + 1 = 3`:
the display loop runs from `minIndex - 1` through `maxIndex` inclusive,
covering source lines `minIndex` through `maxIndex + 1`. -/
theorem claim_rowCount_span_counterexample :
    (SourceCodeModel.setDisassembly exFs4 initState exOut4).map (fun s => s.rowCount) =
      some 4 ∧
    (SourceCodeModel.setDisassembly exFs4 initState exOut4).map (fun s => s.lineOffset) =
      some 5 ∧
    (scanDisassembly (initState.results.entryOffsetMap exOut4.symbol)
        exOut4.disassemblyLines (Costs.initCosts initState.results.numTypes)).maxIndex = 7 ∧
    ¬((7:Int) - 5 + 1 = 4) :=
  ⟨by decide, by decide, by decide, by decide⟩

/-- C4 (amended): after a successful `setDisassembly` on a disassembly
with at least one mapped line, the exposed rows are the inclusive
source-line span `[minIndex, maxIndex + 1]` for the final (possibly
heuristic-adjusted) `minIndex = lineOffset`: `rowCount` equals
`maxIndex - minIndex + 2`, and `lineForIndex` maps row `r` to source
line `minIndex + r`. -/
theorem claim_rowCount_eq_span_plus_two (fs : String → Option String) (st : SourceCodeModel)
    (out : DisassemblyOutput) (content : String) (st' : SourceCodeModel)
    (h1 : ¬out.sourceFileName = "") (h2 : fs out.sourceFileName = some content)
    (h3 : SourceCodeModel.setDisassembly fs st out = some st')
    (h4 : ∃ dl ∈ out.disassemblyLines, dl.sourceCodeLine ≠ 0) :
    st'.rowCount =
      (scanDisassembly (st.results.entryOffsetMap out.symbol) out.disassemblyLines
        (Costs.initCosts st.results.numTypes)).maxIndex - st'.lineOffset + 2 ∧
    ∀ r : Int, st'.lineForIndex r = st'.lineOffset + r := by
  obtain ⟨rows, costs, valid, mi, hcore, hst⟩ := setDisassembly_inv fs st out content st' h1 h2 h3
  obtain ⟨hp, hd, hc, hv⟩ := setDisassemblyCore_inv _ _ _ _ _ _ _ hcore
  have hminmax :
      (scanDisassembly (st.results.entryOffsetMap out.symbol) out.disassemblyLines
        (Costs.initCosts st.results.numTypes)).minIndex ≤
      (scanDisassembly (st.results.entryOffsetMap out.symbol) out.disassemblyLines
        (Costs.initCosts st.results.numTypes)).maxIndex :=
    scanFold_min_le_max (st.results.entryOffsetMap out.symbol) out.disassemblyLines _ h4
  have hmi : mi ≤ (scanDisassembly (st.results.entryOffsetMap out.symbol) out.disassemblyLines
      (Costs.initCosts st.results.numTypes)).minIndex :=
    parenHeuristic_le _ _ _ hp
  have hlen : rows.length =
      ((scanDisassembly (st.results.entryOffsetMap out.symbol) out.disassemblyLines
        (Costs.initCosts st.results.numTypes)).maxIndex + 1 - (mi - 1)).toNat :=
    displayLoop_length _ _ (mi - 1) _ rfl rows hd
  subst hst
  simp only [SourceCodeModel.rowCount, SourceCodeModel.lineForIndex]
  constructor
  · rw [hlen]
    omega
  · intro r
    omega

/-- Witness for the amended C4 on the concrete span example. -/
theorem claim_rowCount_eq_span_plus_two_witness :
    (exRun4.get exRun4_isSome).rowCount =
      (scanDisassembly (initState.results.entryOffsetMap exOut4.symbol)
        exOut4.disassemblyLines (Costs.initCosts initState.results.numTypes)).maxIndex -
        (exRun4.get exRun4_isSome).lineOffset + 2 ∧
    (exRun4.get exRun4_isSome).lineForIndex 0 = (exRun4.get exRun4_isSome).lineOffset + 0 :=
  ⟨(claim_rowCount_eq_span_plus_two exFs4 initState exOut4
      "z\nz\nz\nz\nq(\nfive\nsix\nseven\neight" (exRun4.get exRun4_isSome) (by decide)
      (by decide) (Option.some_get exRun4_isSome).symm (by decide)).1,
    (claim_rowCount_eq_span_plus_two exFs4 initState exOut4
      "z\nz\nz\nz\nq(\nfive\nsix\nseven\neight" (exRun4.get exRun4_isSome) (by decide)
      (by decide) (Option.some_get exRun4_isSome).symm (by decide)).2 0⟩

/-- C5: after a successful `setDisassembly`, a source line is in the
valid-line set exactly when some disassembly instruction maps to it
(`sourceCodeLine != 0`, irrespective of whether its address has a cost
entry), and the SourceCodeLineNumber cell of an in-range row returns
the line number when that line is valid and 0 otherwise. -/
theorem claim_validLines_iff_mapped (fs : String → Option String) (st : SourceCodeModel)
    (out : DisassemblyOutput) (content : String) (st' : SourceCodeModel)
    (h1 : ¬out.sourceFileName = "") (h2 : fs out.sourceFileName = some content)
    (h3 : SourceCodeModel.setDisassembly fs st out = some st') :
    (∀ x : Int, x ∈ st'.validLineNumbers ↔
        x ≠ 0 ∧ ∃ dl ∈ out.disassemblyLines, dl.sourceCodeLine = x) ∧
    ∀ r : Int, 0 ≤ r → r < st'.rowCount →
      st'.data r SourceCodeLineNumber Role.display =
        if r + st'.lineOffset ∈ st'.validLineNumbers then QVariant.int (r + st'.lineOffset)
        else QVariant.int 0 := by
  refine ⟨?_, fun r hr0 hr1 => data_lineNumber_col st' r hr0 hr1⟩
  obtain ⟨rows, costs, valid, mi, hcore, hst⟩ := setDisassembly_inv fs st out content st' h1 h2 h3
  obtain ⟨hp, hd, hc, hv⟩ := setDisassemblyCore_inv _ _ _ _ _ _ _ hcore
  intro x
  subst hst
  show x ∈ valid ↔ _
  rw [hv]
  have hmem := scanFold_valid_mem (st.results.entryOffsetMap out.symbol) out.disassemblyLines
    { maxIndex := 0, minIndex := INT_MAX, costs := Costs.initCosts st.results.numTypes,
      valid := ∅ } x
  rw [scanDisassembly, hmem]
  simp

/-- Witness for C5: on the span example, line 5 is valid (it is mapped
even though its address has no cost entry), and row 0 displays its line
number through the valid-line test. -/
theorem claim_validLines_iff_mapped_witness :
    ((5:Int) ∈ (exRun4.get exRun4_isSome).validLineNumbers ↔
      (5:Int) ≠ 0 ∧ ∃ dl ∈ exOut4.disassemblyLines, dl.sourceCodeLine = 5) ∧
    (exRun4.get exRun4_isSome).data 0 SourceCodeLineNumber Role.display =
      (if (0:Int) + (exRun4.get exRun4_isSome).lineOffset ∈
          (exRun4.get exRun4_isSome).validLineNumbers then
        QVariant.int ((0:Int) + (exRun4.get exRun4_isSome).lineOffset)
      else QVariant.int 0) :=
  ⟨(claim_validLines_iff_mapped exFs4 initState exOut4
      "z\nz\nz\nz\nq(\nfive\nsix\nseven\neight" (exRun4.get exRun4_isSome) (by decide)
      (by decide) (Option.some_get exRun4_isSome).symm).1 5,
    (claim_validLines_iff_mapped exFs4 initState exOut4
      "z\nz\nz\nz\nq(\nfive\nsix\nseven\neight" (exRun4.get exRun4_isSome) (by decide)
      (by decide) (Option.some_get exRun4_isSome).symm).2 0 (by decide) (by decide)⟩

theorem setDisassembly_full_shape (fs : String → Option String) (st : SourceCodeModel)
    (out : DisassemblyOutput) (content : String) (h1 : ¬out.sourceFileName = "")
    (h2 : fs out.sourceFileName = some content) :
    SourceCodeModel.setDisassembly fs st out =
      match setDisassemblyCore st.results out content with
      | none => none
      | some q =>
        some { st with
          sourceCode := q.1, costs := q.2.1, validLineNumbers := q.2.2.1,
          lineOffset := q.2.2.2 } := by
  rw [SourceCodeModel.setDisassembly, if_neg h1, h2]

/-- C6: two successful full runs of `setDisassembly` with the same
inputs (file system, disassembly output, collaborator results) produce
the same aggregator state, valid-line set, displayed source lines and
line offset regardless of the prior model state: the reset at the start
of `setDisassembly` clears all totals and per-line costs, so no state
leaks from the prior symbol. -/
theorem claim_setDisassembly_no_leak (fs : String → Option String)
    (stA stB : SourceCodeModel) (out : DisassemblyOutput) (content : String)
    (h0 : stA.results = stB.results) (h1 : ¬out.sourceFileName = "")
    (h2 : fs out.sourceFileName = some content) :
    (SourceCodeModel.setDisassembly fs stA out).map (fun s => s.costs) =
      (SourceCodeModel.setDisassembly fs stB out).map (fun s => s.costs) ∧
    (SourceCodeModel.setDisassembly fs stA out).map (fun s => s.validLineNumbers) =
      (SourceCodeModel.setDisassembly fs stB out).map (fun s => s.validLineNumbers) ∧
    (SourceCodeModel.setDisassembly fs stA out).map (fun s => s.sourceCode) =
      (SourceCodeModel.setDisassembly fs stB out).map (fun s => s.sourceCode) ∧
    (SourceCodeModel.setDisassembly fs stA out).map (fun s => s.lineOffset) =
      (SourceCodeModel.setDisassembly fs stB out).map (fun s => s.lineOffset) := by
  rw [setDisassembly_full_shape fs stA out content h1 h2,
    setDisassembly_full_shape fs stB out content h1 h2, h0]
  cases setDisassemblyCore stB.results out content with
  | none => exact ⟨rfl, rfl, rfl, rfl⟩
  | some q => exact ⟨rfl, rfl, rfl, rfl⟩

/-- Witness for C6: a state full of stale data from a prior symbol and
a fresh state produce identical results on the span example. -/
theorem claim_setDisassembly_no_leak_witness :
    (SourceCodeModel.setDisassembly exFs4 exStaleState exOut4).map (fun s => s.costs) =
      (SourceCodeModel.setDisassembly exFs4 initState exOut4).map (fun s => s.costs) ∧
    (SourceCodeModel.setDisassembly exFs4 exStaleState exOut4).map
        (fun s => s.validLineNumbers) =
      (SourceCodeModel.setDisassembly exFs4 initState exOut4).map
        (fun s => s.validLineNumbers) ∧
    (SourceCodeModel.setDisassembly exFs4 exStaleState exOut4).map (fun s => s.sourceCode) =
      (SourceCodeModel.setDisassembly exFs4 initState exOut4).map (fun s => s.sourceCode) ∧
    (SourceCodeModel.setDisassembly exFs4 exStaleState exOut4).map (fun s => s.lineOffset) =
      (SourceCodeModel.setDisassembly exFs4 initState exOut4).map (fun s => s.lineOffset) :=
  claim_setDisassembly_no_leak exFs4 exStaleState initState exOut4
    "z\nz\nz\nz\nq(\nfive\nsix\nseven\neight" rfl (by decide) (by decide)
